import Mathlib

/-!
Verification of the attribution engine of the `co-create` editor-session
collector.  The development shallowly embeds the TypeScript sources:

* `src/agent/monitor.ts` — `AgentActivityMonitor` (consumable agent-activity
  oracle with a recency window);
* the human input tracker (`HumanInputTracker`): deterministic typed-input
  ledger, tab/completion disambiguation and per-change classification;
* `src/collectors/diff.ts` — `DiffCollector`: per-file batch state, flush-time
  source resolution, and the line-based LCS diff engine.

JavaScript strings are modelled by Lean `String`, with `s.length`, `slice`,
`startsWith` and `includes` modelled over the character list `s.data`.
`Date.now()` timestamps are modelled as explicit `Int` parameters (JS numeric
subtraction is `Int` subtraction).  Maps with `get(k) || ''` reads are
modelled as total functions with default `""`.  Side effects (console
logging, VS Code API calls, timers) have no bearing on the verified state and
are omitted.
-/

/-! ## Agent activity monitor (`src/agent/monitor.ts`) -/

/-- Payload describing one agent interaction (`AgentInteraction` of
`src/utils/cursor-db.ts`).  The monitor stores and returns it wholesale and
never inspects its fields. -/
structure AgentInteraction where
  bubbleId : String
  model : Option String
  prompt : Option String
  response : Option String
  thinking : Option String
  toolUsage : Option String
  inputTokens : Nat
  outputTokens : Nat
  timestamp : String
  isAgentic : Bool
deriving DecidableEq

/-- The non-null values of `AgentSubtype = 'cmdk' | 'composer' | null`;
the `null` case is `Option.none` at use sites. -/
inductive AgentSubtype where
  | cmdk
  | composer
deriving DecidableEq

/-- `RECENT_AGENT_ACTIVITY_MS` of `src/agent/monitor.ts`. -/
def RECENT_AGENT_ACTIVITY_MS : Int := 10000

/-- Mutable fields of `AgentActivityMonitor` that the activity/consumption
logic reads or writes.  Poll bookkeeping (`lastKnownBubbleTimestamp`,
`lastKnownInlineDiffCount`, `lastKnownGenerationTime`, `isRunning`,
`pollIntervalMs`) only decides *when* `markAgentActive` is invoked and is not
part of the verified state. -/
structure AgentMonitorState where
  lastAgentActivityTime : Int
  newActivityDetectedAt : Int
  agentActivityConsumed : Bool
  lastAgentSubtype : Option AgentSubtype
  lastAgentInteraction : Option AgentInteraction
deriving DecidableEq

/-- `AgentActivityMonitor.isAgentActive`, with `Date.now()` passed as `now`. -/
def isAgentActive (s : AgentMonitorState) (now : Int) : Bool :=
  if s.agentActivityConsumed then
    false
  else if now - s.newActivityDetectedAt < RECENT_AGENT_ACTIVITY_MS then
    true
  else
    false

/-- `AgentActivityMonitor.consumeAgentActivity`. -/
def consumeAgentActivity (s : AgentMonitorState) : AgentMonitorState :=
  { s with agentActivityConsumed := true }

/-- `AgentActivityMonitor.markAgentActive`, with `Date.now()` passed as `now`. -/
def markAgentActive (s : AgentMonitorState) (subtype : Option AgentSubtype)
    (interaction : Option AgentInteraction) (now : Int) : AgentMonitorState :=
  { s with
    lastAgentActivityTime := now
    newActivityDetectedAt := now
    lastAgentSubtype := subtype
    lastAgentInteraction := interaction
    agentActivityConsumed := false }

/-- C1: after `consumeAgentActivity`, `isAgentActive` returns `false` at every
time (even within the recency window); `consumeAgentActivity` is idempotent;
and the next `markAgentActive` resets the consumed flag, making the monitor
active again at the activation instant. -/
theorem consumeAgentActivity_spec (s : AgentMonitorState) (sub : Option AgentSubtype)
    (inter : Option AgentInteraction) (now now' : Int) :
    isAgentActive (consumeAgentActivity s) now = false ∧
    consumeAgentActivity (consumeAgentActivity s) = consumeAgentActivity s ∧
    (markAgentActive (consumeAgentActivity s) sub inter now').agentActivityConsumed = false ∧
    isAgentActive (markAgentActive (consumeAgentActivity s) sub inter now') now' = true := by
  refine ⟨rfl, rfl, rfl, ?_⟩
  simp [isAgentActive, markAgentActive, consumeAgentActivity, RECENT_AGENT_ACTIVITY_MS]

/-! ## Human input tracker (`HumanInputTracker`)

String operations of JavaScript are modelled over `String.data`:
`s.length` is `s.data.length` (which is Lean's `String.length`),
`s.startsWith(p)` is `p.data.isPrefixOf s.data`, `s.includes(t)` is
`t.data.isInfixOf s.data`, and `s.slice(n)` drops the first `n` characters. -/

/-- JS `s.startsWith(pre)`. -/
def strStartsWith (s pre : String) : Bool :=
  pre.data.isPrefixOf s.data

/-- JS `s.includes(sub)`: contiguous-substring containment. -/
def strIncludes (s sub : String) : Bool :=
  decide (sub.data <:+: s.data)

/-- JS `s.slice(n)`. -/
def strSlice (s : String) (n : Nat) : String :=
  String.mk (s.data.drop n)

/-- Entries of the `pendingInputs` queue. -/
structure PendingInput where
  text : String
  timestamp : Int
  filePath : String
deriving DecidableEq

/-- The `pendingTab` marker (`{ filePath, timestamp }`). -/
structure PendingTab where
  filePath : String
  timestamp : Int
deriving DecidableEq

/-- The two classification outcomes (`'human' | 'external'`). -/
inductive ChangeType where
  | human
  | external
deriving DecidableEq

/-- Result record `ChangeClassification` of the tracker. -/
structure ChangeClassification where
  type : ChangeType
  confidence : Nat
  humanChars : Nat
  externalChars : Nat
deriving DecidableEq

/-- `INPUT_EXPIRY_MS` of `HumanInputTracker`. -/
def INPUT_EXPIRY_MS : Int := 500

/-- Mutable state of `HumanInputTracker`: the global queue of typed inputs,
the per-file buffer (`Map<string, string>`, read through `get(f) || ''`,
hence modelled as a total function defaulting to `""`), and the tab mark. -/
structure TrackerState where
  pendingInputs : List PendingInput
  humanInputBuffer : String → String
  pendingTab : Option PendingTab

/-- Fresh tracker (all maps empty, no tab mark). -/
def TrackerState.init : TrackerState :=
  { pendingInputs := [], humanInputBuffer := fun _ => "", pendingTab := none }

/-- Point update of the per-file buffer map (`Map.set`; setting `""` also
models `Map.delete`, since reads go through `get(f) || ''`). -/
def bufferSet (buf : String → String) (f v : String) : String → String :=
  fun x => if x = f then v else buf x

/-- `HumanInputTracker.cleanupExpiredInputs`, with `Date.now()` as `now`. -/
def cleanupExpiredInputs (st : TrackerState) (now : Int) : TrackerState :=
  let cutoff := now - INPUT_EXPIRY_MS
  { st with
    pendingInputs := st.pendingInputs.filter (fun p => decide (cutoff < p.timestamp))
    pendingTab :=
      match st.pendingTab with
      | some t => if t.timestamp < cutoff then none else some t
      | none => none }

/-- `HumanInputTracker.onType` for a keystroke of `text` with the active
editor on `filePath`: record the tab mark on a literal `"\t"`, push the
timestamped record, append to the per-file buffer, then clean up. -/
def onType (st : TrackerState) (filePath text : String) (now : Int) : TrackerState :=
  let st1 := if text = "\t" then { st with pendingTab := some ⟨filePath, now⟩ } else st
  let st2 :=
    { st1 with
      pendingInputs := st1.pendingInputs ++ [⟨text, now, filePath⟩]
      humanInputBuffer :=
        bufferSet st1.humanInputBuffer filePath (st1.humanInputBuffer filePath ++ text) }
  cleanupExpiredInputs st2 now

/-- `HumanInputTracker.markTabPressed`. -/
def markTabPressed (st : TrackerState) (filePath : String) (now : Int) : TrackerState :=
  { st with pendingTab := some ⟨filePath, now⟩ }

/-- `HumanInputTracker.clearBuffer`. -/
def clearBuffer (st : TrackerState) (filePath : String) : TrackerState :=
  { st with humanInputBuffer := bufferSet st.humanInputBuffer filePath "" }

/-- `HumanInputTracker.clearPendingForFile`. -/
def clearPendingForFile (st : TrackerState) (filePath : String) : TrackerState :=
  { st with
    humanInputBuffer := bufferSet st.humanInputBuffer filePath ""
    pendingInputs := st.pendingInputs.filter (fun p => decide ¬(p.filePath = filePath))
    pendingTab :=
      match st.pendingTab with
      | some t => if t.filePath = filePath then none else some t
      | none => none }

/-- `HumanInputTracker.consumeInput`: strip the matched text from the
per-file buffer (clear it entirely on mismatch) and drop queue records whose
text is contained in the consumed text. -/
def consumeInput (st : TrackerState) (filePath consumedText : String) : TrackerState :=
  let existing := st.humanInputBuffer filePath
  let newBuf :=
    if strStartsWith existing consumedText then
      bufferSet st.humanInputBuffer filePath (strSlice existing consumedText.length)
    else
      bufferSet st.humanInputBuffer filePath ""
  { st with
    humanInputBuffer := newBuf
    pendingInputs :=
      st.pendingInputs.filter
        (fun p => decide ¬(p.filePath = filePath ∧ strIncludes consumedText p.text = true)) }

/-- Test of the regex `/^(\t| {1,8})$/`: a single tab character, or one to
eight space characters. -/
def isJustIndentation (s : String) : Bool :=
  decide (s.data = ['\t']) ||
    (decide (1 ≤ s.data.length) && decide (s.data.length ≤ 8) &&
      s.data.all (fun c => decide (c = ' ')))

/-- `HumanInputTracker.textMatchesPending`. -/
def textMatchesPending (addedText pendingText : String) : Bool :=
  if addedText.length ≤ pendingText.length then
    strStartsWith pendingText addedText
  else
    strStartsWith addedText pendingText

/-- `HumanInputTracker.detectPossibleCompletion` (diagnostic logging only:
its value never influences a verdict or the tracker state). -/
def detectPossibleCompletion (st : TrackerState) (filePath addedText : String)
    (now : Int) : Bool :=
  let recentTyping :=
    st.pendingInputs.any
      (fun p => decide (p.filePath = filePath) && decide (now - p.timestamp < 2000))
  if !recentTyping then false
  else if addedText.data.all (fun c => c.isWhitespace) then false
  else if addedText.length < 3 || addedText.length > 500 then false
  else true

/-- `HumanInputTracker.classifyChange`.  Returns the classification together
with the updated tracker state.  The `removedLength` and change-reason
arguments of the source are unused there and omitted here.  The source's tab
branch falls through (without clearing the mark) when `addedText` is empty;
this is mirrored by the guard `0 < addedText.length` on the completion arm,
after which the empty `addedText` fails the match arm and lands in the final
external arm. -/
def classifyChange (st : TrackerState) (filePath addedText : String)
    (now : Int) : ChangeClassification × TrackerState :=
  let st := cleanupExpiredInputs st now
  let pendingHumanText := st.humanInputBuffer filePath
  let tabLive : Bool :=
    match st.pendingTab with
    | some t => decide (t.filePath = filePath) && decide (now - t.timestamp < INPUT_EXPIRY_MS)
    | none => false
  if tabLive && isJustIndentation addedText then
    (⟨.human, 1, addedText.length, 0⟩, clearPendingForFile { st with pendingTab := none } filePath)
  else if tabLive && decide (0 < addedText.length) then
    (⟨.external, 1, 0, addedText.length⟩, clearPendingForFile { st with pendingTab := none } filePath)
  else if decide (0 < pendingHumanText.length) && decide (0 < addedText.length) &&
      textMatchesPending addedText pendingHumanText then
    (⟨.human, 1, addedText.length, 0⟩, consumeInput st filePath addedText)
  else
    (⟨.external, 1, 0, addedText.length⟩, clearPendingForFile st filePath)

/-! ## Tracker theorems -/

/-- C10: every classification verdict has confidence exactly 1; a human
verdict carries `humanChars = addedText.length` and `externalChars = 0`; an
external verdict carries `externalChars = addedText.length` and
`humanChars = 0`; hence the two counts always sum to `addedText.length` and a
single change is never split between them. -/
theorem classifyChange_verdict_invariant (st : TrackerState) (f addedText : String)
    (now : Int) (r : ChangeClassification) (st' : TrackerState)
    (h : classifyChange st f addedText now = (r, st')) :
    r.confidence = 1 ∧
    (r.type = ChangeType.human → r.humanChars = addedText.length ∧ r.externalChars = 0) ∧
    (r.type = ChangeType.external → r.externalChars = addedText.length ∧ r.humanChars = 0) ∧
    r.humanChars + r.externalChars = addedText.length := by
  unfold classifyChange at h
  dsimp only at h
  split at h
  · cases h; simp
  · split at h
    · cases h; simp
    · split at h
      · cases h; simp
      · cases h; simp

/-- C10 witness: the invariant discharged at a concrete call. -/
theorem classifyChange_verdict_invariant_witness :
    (⟨ChangeType.external, 1, 0, 2⟩ : ChangeClassification).confidence = 1 ∧
    ((⟨ChangeType.external, 1, 0, 2⟩ : ChangeClassification).type = ChangeType.human →
      (⟨ChangeType.external, 1, 0, 2⟩ : ChangeClassification).humanChars = ("hi" : String).length ∧
      (⟨ChangeType.external, 1, 0, 2⟩ : ChangeClassification).externalChars = 0) ∧
    ((⟨ChangeType.external, 1, 0, 2⟩ : ChangeClassification).type = ChangeType.external →
      (⟨ChangeType.external, 1, 0, 2⟩ : ChangeClassification).externalChars = ("hi" : String).length ∧
      (⟨ChangeType.external, 1, 0, 2⟩ : ChangeClassification).humanChars = 0) ∧
    (⟨ChangeType.external, 1, 0, 2⟩ : ChangeClassification).humanChars +
      (⟨ChangeType.external, 1, 0, 2⟩ : ChangeClassification).externalChars = ("hi" : String).length :=
  classifyChange_verdict_invariant TrackerState.init "F" "hi" 0 _ _ rfl

/-- Unfolding of the indentation test into its defining predicate. -/
theorem isJustIndentation_iff (s : String) :
    isJustIndentation s = true ↔
      (s.data = ['\t'] ∨
        (1 ≤ s.data.length ∧ s.data.length ≤ 8 ∧ ∀ c ∈ s.data, c = ' ')) := by
  simp [isJustIndentation, List.all_eq_true, and_assoc]

/-- C6: with a live tab mark for the file and non-empty `addedText`,
`classifyChange` returns human exactly when `addedText` is a single tab
character or one to eight spaces (full count human), returns external
otherwise (full count external), and consumes the mark in both cases. -/
theorem classifyChange_tab_live (st : TrackerState) (t : PendingTab)
    (f addedText : String) (now : Int)
    (htab : st.pendingTab = some t) (hfile : t.filePath = f)
    (hfresh : now - t.timestamp < INPUT_EXPIRY_MS) (hne : addedText ≠ "") :
    (if addedText.data = ['\t'] ∨
        (1 ≤ addedText.data.length ∧ addedText.data.length ≤ 8 ∧ ∀ c ∈ addedText.data, c = ' ')
      then (classifyChange st f addedText now).1 =
        ⟨ChangeType.human, 1, addedText.length, 0⟩
      else (classifyChange st f addedText now).1 =
        ⟨ChangeType.external, 1, 0, addedText.length⟩) ∧
    (classifyChange st f addedText now).2.pendingTab = none := by
  have hcut : ¬ t.timestamp < now - INPUT_EXPIRY_MS := by omega
  have hlen : 0 < addedText.length := by
    cases addedText with
    | mk d =>
      cases d with
      | nil => exact absurd rfl hne
      | cons c cs => simp [String.length]
  cases hi : isJustIndentation addedText with
  | true =>
    rw [if_pos ((isJustIndentation_iff addedText).mp hi)]
    simp [classifyChange, cleanupExpiredInputs, clearPendingForFile, htab, hfile, hfresh, hcut, hi]
  | false =>
    rw [if_neg (fun hp => by simp [(isJustIndentation_iff addedText).mpr hp] at hi)]
    simp [classifyChange, cleanupExpiredInputs, clearPendingForFile, htab, hfile, hfresh, hcut,
      hi, hlen]

/-- C6 witness: a live mark set at time 0, change `"  "` at time 0 is human. -/
theorem classifyChange_tab_live_witness :
    (if ("  " : String).data = ['\t'] ∨
        (1 ≤ ("  " : String).data.length ∧ ("  " : String).data.length ≤ 8 ∧
          ∀ c ∈ ("  " : String).data, c = ' ')
      then (classifyChange (markTabPressed TrackerState.init "F" 0) "F" "  " 0).1 =
        ⟨ChangeType.human, 1, ("  " : String).length, 0⟩
      else (classifyChange (markTabPressed TrackerState.init "F" 0) "F" "  " 0).1 =
        ⟨ChangeType.external, 1, 0, ("  " : String).length⟩) ∧
    (classifyChange (markTabPressed TrackerState.init "F" 0) "F" "  " 0).2.pendingTab = none :=
  classifyChange_tab_live (markTabPressed TrackerState.init "F" 0) ⟨"F", 0⟩ "F" "  " 0
    rfl rfl (by decide) (by decide)

/-- Tracker state after typing `"foo"` character by character in file `"F"`
(the scenario of C5). -/
def c5State : TrackerState :=
  onType (onType (onType TrackerState.init "F" "f" 0) "F" "o" 0) "F" "o" 0

/-- C5 counterexample: with pending buffer `"foo"`, the combined change
`"foo bar baz"` is NOT classified external — the matching rule accepts it
(the pending buffer is a prefix of the added text) and classifies it human
with `humanChars = 11`. -/
theorem c5_counterexample :
    c5State.humanInputBuffer "F" = "foo" ∧
    (classifyChange c5State "F" "foo bar baz" 0).1 ≠
      ⟨ChangeType.external, 1, 0, 11⟩ ∧
    (classifyChange c5State "F" "foo bar baz" 0).1.type = ChangeType.human := by
  decide

/-- C5 as amended: the single combined change `"foo bar baz"` after typing
`"foo"` is classified human with `humanChars = 11` and `externalChars = 0`,
because the 3-character pending buffer IS a prefix of the 11-character added
text under `textMatchesPending`; the buffer is cleared by the mismatching
consume. -/
theorem c5_amended_spec :
    c5State.humanInputBuffer "F" = "foo" ∧
    textMatchesPending "foo bar baz" "foo" = true ∧
    (classifyChange c5State "F" "foo bar baz" 0).1 =
      ⟨ChangeType.human, 1, 11, 0⟩ ∧
    (classifyChange c5State "F" "foo bar baz" 0).2.humanInputBuffer "F" = "" := by
  decide

/-- Folding a list of keystroke events `(text, timestamp)` for one file into
the tracker. -/
def onTypes (st : TrackerState) (filePath : String)
    (evs : List (String × Int)) : TrackerState :=
  evs.foldl (fun s e => onType s filePath e.1 e.2) st

/-- Keystrokes other than a literal tab never create a tab mark. -/
theorem onTypes_pendingTab_none (filePath : String) (evs : List (String × Int)) :
    ∀ st : TrackerState, st.pendingTab = none → (∀ e ∈ evs, e.1 ≠ "\t") →
      (onTypes st filePath evs).pendingTab = none := by
  induction evs with
  | nil => intro st h _; exact h
  | cons e evs ih =>
    intro st h hall
    refine ih _ ?_ (fun e' he' => hall e' (List.mem_cons_of_mem _ he'))
    have hne : ¬ e.1 = "\t" := hall e (List.mem_cons_self _ _)
    simp only [onType, cleanupExpiredInputs, if_neg hne]
    rw [h]

/-- Cleaning up expired inputs never touches the per-file buffer. -/
theorem cleanupExpiredInputs_buffer (st : TrackerState) (now : Int) :
    (cleanupExpiredInputs st now).humanInputBuffer = st.humanInputBuffer := rfl

/-- C4 counterexample: the keystroke sequence `"x"`, `"\t"` (pending buffer
`"x\t"`) followed by the change `"x\t"` satisfies the matching rule, yet
`classifyChange` returns external with `humanChars = 0`: the live tab mark
takes precedence and `"x\t"` is not pure indentation. -/
theorem c4_counterexample :
    textMatchesPending "x\t"
      ((onTypes TrackerState.init "F" [("x", 0), ("\t", 0)]).humanInputBuffer "F") = true ∧
    (classifyChange (onTypes TrackerState.init "F" [("x", 0), ("\t", 0)]) "F" "x\t" 0).1 =
      ⟨ChangeType.external, 1, 0, 2⟩ := by
  decide

/-- C4 as amended: for every sequence of keystroke events none of which is a
literal tab, starting from a fresh tracker, a following document change with
non-empty `addedText` satisfying the matching rule against the non-empty
pending buffer is classified human with `humanChars = addedText.length` and
`externalChars = 0`. -/
theorem classifyChange_matching_keystrokes (filePath addedText : String)
    (evs : List (String × Int)) (now : Int)
    (hnotab : ∀ e ∈ evs, e.1 ≠ "\t")
    (hbuf : (onTypes TrackerState.init filePath evs).humanInputBuffer filePath ≠ "")
    (hne : addedText ≠ "")
    (hmatch : textMatchesPending addedText
      ((onTypes TrackerState.init filePath evs).humanInputBuffer filePath) = true) :
    (classifyChange (onTypes TrackerState.init filePath evs) filePath addedText now).1 =
      ⟨ChangeType.human, 1, addedText.length, 0⟩ := by
  have htab : (onTypes TrackerState.init filePath evs).pendingTab = none :=
    onTypes_pendingTab_none filePath evs TrackerState.init rfl hnotab
  have hlen : 0 < addedText.length := by
    cases addedText with
    | mk d =>
      cases d with
      | nil => exact absurd rfl hne
      | cons c cs => simp [String.length]
  have hblen : 0 < ((onTypes TrackerState.init filePath evs).humanInputBuffer filePath).length := by
    cases hb : (onTypes TrackerState.init filePath evs).humanInputBuffer filePath with
    | mk d =>
      cases d with
      | nil => exact absurd hb hbuf
      | cons c cs => simp [String.length]
  simp [classifyChange, cleanupExpiredInputs, htab, hlen, hblen, hmatch]

/-- C4 amended witness: typing `"x"` then the matching change `"x"`. -/
theorem classifyChange_matching_keystrokes_witness :
    (classifyChange (onTypes TrackerState.init "F" [("x", 0)]) "F" "x" 0).1 =
      ⟨ChangeType.human, 1, ("x" : String).length, 0⟩ :=
  classifyChange_matching_keystrokes "F" "x" [("x", 0)] 0
    (by decide) (by decide) (by decide) (by decide)

/-- Tracker state with one keystroke `"a"` in file `"F"` at time 0 (used to
exercise the expiry pass of C7). -/
def c7State : TrackerState := onType TrackerState.init "F" "a" 0

/-- C7 counterexample: an expiry pass at time 1000 (well past the 500ms
window) empties the queue but leaves the stale per-file typed buffer `"a"`
in place — `cleanupExpiredInputs` never touches `humanInputBuffer`. -/
theorem c7_counterexample :
    (cleanupExpiredInputs c7State 1000).pendingInputs = [] ∧
    (cleanupExpiredInputs c7State 1000).humanInputBuffer "F" = "a" := by
  decide

/-- C7 as amended: the expiry pass at `now` keeps exactly the queue records
younger than the 500ms window (dropping every older one), clears the tab
mark when expired, and leaves the per-file typed buffer untouched. -/
theorem cleanupExpiredInputs_spec (st : TrackerState) (now : Int) :
    (∀ p ∈ (cleanupExpiredInputs st now).pendingInputs,
      now - INPUT_EXPIRY_MS < p.timestamp) ∧
    (∀ p ∈ st.pendingInputs, now - INPUT_EXPIRY_MS < p.timestamp →
      p ∈ (cleanupExpiredInputs st now).pendingInputs) ∧
    (cleanupExpiredInputs st now).humanInputBuffer = st.humanInputBuffer ∧
    (∀ t, (cleanupExpiredInputs st now).pendingTab = some t →
      ¬ t.timestamp < now - INPUT_EXPIRY_MS) := by
  refine ⟨?_, ?_, rfl, ?_⟩
  · intro p hp
    simp only [cleanupExpiredInputs, List.mem_filter, decide_eq_true_eq] at hp
    exact hp.2
  · intro p hp hfresh
    simp only [cleanupExpiredInputs, List.mem_filter, decide_eq_true_eq]
    exact ⟨hp, hfresh⟩
  · intro t ht
    simp only [cleanupExpiredInputs] at ht
    cases htab : st.pendingTab with
    | none => rw [htab] at ht; cases ht
    | some t' =>
      rw [htab] at ht
      simp only [] at ht
      by_cases hexp : t'.timestamp < now - INPUT_EXPIRY_MS
      · rw [if_pos hexp] at ht; cases ht
      · rw [if_neg hexp] at ht; cases ht; exact hexp

/-- C7 amended witness: the spec applied to the concrete expiry pass. -/
theorem cleanupExpiredInputs_spec_witness :
    (cleanupExpiredInputs c7State 1000).humanInputBuffer = c7State.humanInputBuffer :=
  (cleanupExpiredInputs_spec c7State 1000).2.2.1

/-! ## Diff/LCS engine (`DiffCollector` of `src/collectors/diff.ts`)

Texts are split into lines on `'\n'` (JS `text.split('\n')`), diffed via a
dynamic-programming longest-common-subsequence with the source's backtrack
tie-breaking, and regrouped into hunks whose lines carry `"- "` / `"+ "`
prefixes (removed lines of a hunk before its added lines). -/

/-- JS `text.split('\n')` over the character list: `[[]]` for the empty
text, a new segment begun at each newline. -/
def splitLinesList : List Char → List (List Char)
  | [] => [[]]
  | c :: cs =>
    if c = '\n' then
      [] :: splitLinesList cs
    else
      match splitLinesList cs with
      | [] => [[c]]
      | l :: ls => (c :: l) :: ls

/-- JS `text.split('\n')` on strings. -/
def splitLines (s : String) : List String :=
  (splitLinesList s.data).map String.mk

/-- JS `parts.join('\n')`. -/
def joinLines : List String → String
  | [] => ""
  | [s] => s
  | s :: rest => s ++ "\n" ++ joinLines rest

/-- A diff hunk (`{oldStart, oldCount, newStart, newCount, lines}`); the
starts are 0-based here, printed 1-based by `computeDiff`. -/
structure Hunk where
  oldStart : Nat
  oldCount : Nat
  newStart : Nat
  newCount : Nat
  lines : List String
deriving DecidableEq

/-- The loop guard `lcsIdx >= lcs.length || line !== lcs[lcsIdx]` of
`computeHunks`, as a predicate on the current line given the remaining LCS. -/
def neqHead : List String → String → Bool
  | [], _ => true
  | x :: _, s => decide (¬ s = x)

mutual

/-- The outer `while` of `DiffCollector.computeHunks`, operating on the
remaining suffixes of the old lines, new lines and LCS, with `oldIdx`/`newIdx`
the absolute positions of those suffixes.  One skip-matching step at a time
(the inner skip `while` is re-entered after each hunk anyway). -/
def hunkWalk (old new lcs : List String) (oldIdx newIdx : Nat) : List Hunk :=
  match old, new, lcs with
  | o :: os, n :: ns, x :: ls =>
    if o = x ∧ n = x then
      hunkWalk os ns ls (oldIdx + 1) (newIdx + 1)
    else
      hunkEmit (o :: os) (n :: ns) (x :: ls) oldIdx newIdx
  | [], [], _ => []
  | o, n, l => hunkEmit o n l oldIdx newIdx
termination_by 2 * (old.length + new.length) + 1

/-- One iteration body of `computeHunks` collecting a hunk: the removed run
(old lines differing from the LCS head), then the added run (new lines
differing from the LCS head), pushed when non-empty.  The guard returning
`[]` when both runs are empty is unreachable whenever `lcs` is a common
subsequence of `old` and `new` (in the source the loop could not progress
there). -/
def hunkEmit (old new lcs : List String) (oldIdx newIdx : Nat) : List Hunk :=
  let removed := old.takeWhile (neqHead lcs)
  let added := new.takeWhile (neqHead lcs)
  if h : removed = [] ∧ added = [] then
    []
  else
    { oldStart := oldIdx, oldCount := removed.length,
      newStart := newIdx, newCount := added.length,
      lines := removed.map (fun l => "- " ++ l) ++ added.map (fun l => "+ " ++ l) } ::
      hunkWalk (old.drop removed.length) (new.drop added.length) lcs
        (oldIdx + removed.length) (newIdx + added.length)
termination_by 2 * (old.length + new.length)
decreasing_by
  have h1 : (List.takeWhile (neqHead lcs) old).length ≤ old.length :=
    (List.takeWhile_sublist _).length_le
  have h2 : (List.takeWhile (neqHead lcs) new).length ≤ new.length :=
    (List.takeWhile_sublist _).length_le
  rcases not_and_or.mp h with h3 | h3
  · have h4 : 0 < (List.takeWhile (neqHead lcs) old).length := List.length_pos.mpr h3
    simp only [List.length_drop]
    omega
  · have h4 : 0 < (List.takeWhile (neqHead lcs) new).length := List.length_pos.mpr h3
    simp only [List.length_drop]
    omega

end

/-- Value `dp[i][j]` of the LCS dynamic-programming table of
`DiffCollector.longestCommonSubsequence`, with the prefixes `a[0..i)` and
`b[0..j)` represented reversed (head = last element of the prefix). -/
def lcsLenRev : List String → List String → Nat
  | [], _ => 0
  | _ :: _, [] => 0
  | x :: xs, y :: ys =>
    if x = y then
      lcsLenRev xs ys + 1
    else
      max (lcsLenRev xs (y :: ys)) (lcsLenRev (x :: xs) ys)
termination_by a b => a.length + b.length

/-- Backtrack of `DiffCollector.longestCommonSubsequence` from `dp[i][j]`,
on reversed prefixes; produces the LCS in reversed order.  The tie-break is
the source's: move `i--` exactly when `dp[i-1][j] > dp[i][j-1]`. -/
def lcsRev : List String → List String → List String
  | [], _ => []
  | _ :: _, [] => []
  | x :: xs, y :: ys =>
    if x = y then
      x :: lcsRev xs ys
    else if lcsLenRev xs (y :: ys) > lcsLenRev (x :: xs) ys then
      lcsRev xs (y :: ys)
    else
      lcsRev (x :: xs) ys
termination_by a b => a.length + b.length

/-- `DiffCollector.longestCommonSubsequence`. -/
def longestCommonSubsequence (a b : List String) : List String :=
  (lcsRev a.reverse b.reverse).reverse

/-- `DiffCollector.computeHunks`. -/
def computeHunks (oldLines newLines : List String) : List Hunk :=
  hunkWalk oldLines newLines (longestCommonSubsequence oldLines newLines) 0 0

/-- Result record of `DiffCollector.computeDiff`. -/
structure DiffResult where
  text : String
  added : Nat
  removed : Nat
deriving DecidableEq

/-- The `@@ -oldStart,oldCount +newStart,newCount @@` header (1-based). -/
def hunkHeader (h : Hunk) : String :=
  "@@ -" ++ toString (h.oldStart + 1) ++ "," ++ toString h.oldCount ++
    " +" ++ toString (h.newStart + 1) ++ "," ++ toString h.newCount ++ " @@"

/-- JS `line.startsWith(c)` for the one-character prefixes used by the
counting loop of `computeDiff`. -/
def strStartsWithChar (l : String) (c : Char) : Bool :=
  l.data.head? = some c

/-- `DiffCollector.computeDiff`: split, diff, render headers and lines, and
count the lines starting with `'+'` / `'-'` (headers start with `'@'` and are
counted by neither). -/
def computeDiff (oldText newText : String) : DiffResult :=
  let oldLines := splitLines oldText
  let newLines := splitLines newText
  let hunks := computeHunks oldLines newLines
  let diffParts := (hunks.map (fun h => hunkHeader h :: h.lines)).flatten
  { text := joinLines diffParts
    added := (diffParts.filter (fun l => strStartsWithChar l '+')).length
    removed := (diffParts.filter (fun l => strStartsWithChar l '-')).length }

/-! ## Hunk application (the spec's round-trip semantics) and diff theorems -/

/-- Reading an added line back out of a rendered hunk line: lines carrying
the `"+ "` marker yield their payload, all others (the `"- "` removed lines)
yield nothing. -/
def addedLineOf (l : String) : Option String :=
  match l.data with
  | '+' :: ' ' :: rest => some (String.mk rest)
  | _ => none

/-- The added lines of a hunk (its `"+ "`-prefixed lines, unprefixed). -/
def addedOf (h : Hunk) : List String :=
  h.lines.filterMap addedLineOf

/-- Applying a list of hunks, in order, to the remaining suffix `old` of the
original lines, where `base` is the absolute position of that suffix: lines
before `oldStart` are kept, the hunk's `oldCount` removed lines are deleted
at `oldStart`, and its added lines are inserted there (which is exactly the
hunk's new position, since earlier hunks have already reshaped the prefix). -/
def applyFrom (old : List String) (base : Nat) : List Hunk → List String
  | [] => old
  | h :: hs =>
      old.take (h.oldStart - base) ++ addedOf h ++
        applyFrom (old.drop (h.oldStart - base + h.oldCount)) (h.oldStart + h.oldCount) hs

/-- Applying all hunks of a diff to the old lines. -/
def applyHunks (a : List String) (hs : List Hunk) : List String :=
  applyFrom a 0 hs

/-- Dropping as many elements as `takeWhile` keeps is `dropWhile`. -/
theorem drop_length_takeWhile {α : Type} (p : α → Bool) (l : List α) :
    l.drop (l.takeWhile p).length = l.dropWhile p := by
  induction l with
  | nil => rfl
  | cons a l ih =>
    cases hpa : p a with
    | true => simp [List.takeWhile_cons, List.dropWhile_cons, hpa, ih]
    | false => simp [List.takeWhile_cons, List.dropWhile_cons, hpa]

/-- A sublist headed by an element falsifying `p` survives `dropWhile p`. -/
theorem sublist_dropWhile_of_head {α : Type} (p : α → Bool) (x : α) (ls l : List α)
    (h : List.Sublist (x :: ls) l) (hx : p x = false) :
    List.Sublist (x :: ls) (l.dropWhile p) := by
  induction l with
  | nil => simp at h
  | cons a l ih =>
    cases h with
    | cons _ h' =>
      cases hpa : p a with
      | true => simpa [List.dropWhile_cons, hpa] using ih h'
      | false => simpa [List.dropWhile_cons, hpa] using (h'.cons a)
    | cons₂ _ h' =>
      rw [List.dropWhile_cons, hx]
      exact h'.cons₂ x

/-- Removed lines contribute no added lines. -/
theorem filterMap_minus (rem : List String) :
    (rem.map (fun l => "- " ++ l)).filterMap addedLineOf = [] := by
  induction rem with
  | nil => rfl
  | cons r rem ih => simpa [show addedLineOf ("- " ++ r) = none from rfl] using ih

/-- Added lines are recovered exactly from their rendered form. -/
theorem filterMap_plus (add : List String) :
    (add.map (fun l => "+ " ++ l)).filterMap addedLineOf = add := by
  induction add with
  | nil => rfl
  | cons a add ih => simpa [show addedLineOf ("+ " ++ a) = some a from rfl] using ih

/-- The added lines of an emitted hunk are its added run. -/
theorem addedOf_emit (i rc j ac : Nat) (rem add : List String) :
    addedOf ⟨i, rc, j, ac,
      rem.map (fun l => "- " ++ l) ++ add.map (fun l => "+ " ++ l)⟩ = add := by
  simp only [addedOf, List.filterMap_append, filterMap_minus, filterMap_plus, List.nil_append]

/-- The backtracked LCS is a sublist of its first argument. -/
theorem lcsRev_sublist_left (a b : List String) : List.Sublist (lcsRev a b) a := by
  induction a, b using lcsRev.induct with
  | case1 b => simp [lcsRev]
  | case2 x xs => simp [lcsRev]
  | case3 xs y ys ih =>
    simp only [lcsRev, if_true]
    exact ih.cons₂ y
  | case4 x xs y ys h1 h2 ih =>
    simp only [lcsRev]
    rw [if_neg h1, if_pos h2]
    exact ih.cons x
  | case5 x xs y ys h1 h2 ih =>
    simp only [lcsRev]
    rw [if_neg h1, if_neg h2]
    exact ih

/-- The backtracked LCS is a sublist of its second argument. -/
theorem lcsRev_sublist_right (a b : List String) : List.Sublist (lcsRev a b) b := by
  induction a, b using lcsRev.induct with
  | case1 b => simp [lcsRev]
  | case2 x xs => simp [lcsRev]
  | case3 xs y ys ih =>
    simp only [lcsRev, if_true]
    exact ih.cons₂ y
  | case4 x xs y ys h1 h2 ih =>
    simp only [lcsRev]
    rw [if_neg h1, if_pos h2]
    exact ih
  | case5 x xs y ys h1 h2 ih =>
    simp only [lcsRev]
    rw [if_neg h1, if_neg h2]
    exact ih.cons y

/-- The computed LCS is a common subsequence: sublist of the old lines. -/
theorem longestCommonSubsequence_sublist_left (a b : List String) :
    List.Sublist (longestCommonSubsequence a b) a := by
  have h := List.reverse_sublist.mpr (lcsRev_sublist_left a.reverse b.reverse)
  simpa [longestCommonSubsequence] using h

/-- The computed LCS is a common subsequence: sublist of the new lines. -/
theorem longestCommonSubsequence_sublist_right (a b : List String) :
    List.Sublist (longestCommonSubsequence a b) b := by
  have h := List.reverse_sublist.mpr (lcsRev_sublist_right a.reverse b.reverse)
  simpa [longestCommonSubsequence] using h

/-- The skip-matching condition of the hunk walk: both texts start with the
LCS head. -/
def SkipMatch (old new lcs : List String) : Prop :=
  ∃ x os ns ls, old = x :: os ∧ new = x :: ns ∧ lcs = x :: ls

/-- Every hunk produced by the walk starts at or after the walk's base
position in the old lines. -/
theorem hunkWalk_cons_le :
    ∀ (old new lcs : List String) (i j : Nat) (h : Hunk) (hs : List Hunk),
      hunkWalk old new lcs i j = h :: hs → i ≤ h.oldStart := by
  refine hunkWalk.induct
    (fun old new lcs i j => ∀ (h : Hunk) (hs : List Hunk),
      hunkWalk old new lcs i j = h :: hs → i ≤ h.oldStart)
    (fun old new lcs i j => ∀ (h : Hunk) (hs : List Hunk),
      hunkEmit old new lcs i j = h :: hs → i ≤ h.oldStart)
    ?_ ?_ ?_ ?_ ?_ ?_
  · intro i j o os n ns x ls hx ih h hs heq
    simp only [hunkWalk, if_pos hx] at heq
    exact Nat.le_of_succ_le (ih h hs heq)
  · intro i j o os n ns x ls hx ih h hs heq
    simp only [hunkWalk, if_neg hx] at heq
    exact ih h hs heq
  · intro lcs i j h hs heq
    simp only [hunkWalk] at heq
    exact absurd heq (by simp)
  · intro i j o n l hshape hnil ih h hs heq
    rcases o with _ | ⟨o1, os⟩ <;> rcases n with _ | ⟨n1, ns⟩ <;> rcases l with _ | ⟨x, ls⟩
    · exact (hnil rfl rfl).elim
    · exact (hnil rfl rfl).elim
    · simp only [hunkWalk] at heq; exact ih h hs heq
    · simp only [hunkWalk] at heq; exact ih h hs heq
    · simp only [hunkWalk] at heq; exact ih h hs heq
    · simp only [hunkWalk] at heq; exact ih h hs heq
    · simp only [hunkWalk] at heq; exact ih h hs heq
    · exact (hshape o1 os n1 ns x ls rfl rfl rfl).elim
  · intro old new lcs i j removed added hstuck h hs heq
    simp only [hunkEmit] at heq
    split at heq
    · exact absurd heq (by simp)
    · cases heq
  · intro old new lcs i j removed added hne ih h hs heq
    simp only [hunkEmit] at heq
    split at heq
    · exact absurd heq (by simp)
    · cases heq
      simp

/-- Core round-trip: applying the walked hunks to the old suffix rebuilds
the new suffix, whenever the remaining LCS is a common subsequence of both
(mutual induction following `hunkWalk`/`hunkEmit`). -/
theorem applyFrom_hunkWalk :
    ∀ (old new lcs : List String) (i j : Nat),
      List.Sublist lcs old → List.Sublist lcs new →
      applyFrom old i (hunkWalk old new lcs i j) = new := by
  refine hunkWalk.induct
    (fun old new lcs i j => List.Sublist lcs old → List.Sublist lcs new →
      applyFrom old i (hunkWalk old new lcs i j) = new)
    (fun old new lcs i j => ¬ SkipMatch old new lcs →
      List.Sublist lcs old → List.Sublist lcs new →
      applyFrom old i (hunkEmit old new lcs i j) = new)
    ?_ ?_ ?_ ?_ ?_ ?_
  · -- skip-matching step
    intro i j o os n ns x ls hx ih hso hsn
    simp only [hunkWalk, if_pos hx]
    obtain ⟨rfl, rfl⟩ := hx
    have IH := ih (List.cons_sublist_cons.mp hso) (List.cons_sublist_cons.mp hsn)
    cases hW : hunkWalk os ns ls (i + 1) (j + 1) with
    | nil =>
      rw [hW] at IH
      simp only [applyFrom] at IH ⊢
      rw [IH]
    | cons h hs =>
      have hle : i + 1 ≤ h.oldStart := hunkWalk_cons_le os ns ls (i + 1) (j + 1) h hs hW
      rw [hW] at IH
      simp only [applyFrom] at IH ⊢
      have e1 : h.oldStart - i = (h.oldStart - (i + 1)) + 1 := by omega
      have e2' : h.oldStart - (i + 1) + 1 + h.oldCount =
          (h.oldStart - (i + 1) + h.oldCount) + 1 := by omega
      rw [e1, e2', List.take_succ_cons, List.drop_succ_cons]
      simp only [List.cons_append]
      rw [IH]
  · -- heads present but not both matching: delegate to the emit step
    intro i j o os n ns x ls hx ih hso hsn
    simp only [hunkWalk, if_neg hx]
    refine ih ?_ hso hsn
    rintro ⟨y, os', ns', ls', h1, h2, h3⟩
    cases h1; cases h2; cases h3
    exact hx ⟨rfl, rfl⟩
  · -- both texts exhausted
    intro lcs i j hso hsn
    simp only [hunkWalk, applyFrom]
  · -- shape mismatch: delegate to the emit step
    intro i j o n l hshape hnil ih hso hsn
    have hP : ¬ SkipMatch o n l := by
      rintro ⟨y, os', ns', ls', h1, h2, h3⟩
      exact hshape y os' y ns' y ls' h1 h2 h3
    rcases o with _ | ⟨o1, os⟩ <;> rcases n with _ | ⟨n1, ns⟩ <;> rcases l with _ | ⟨x, ls⟩
    · exact (hnil rfl rfl).elim
    · exact (hnil rfl rfl).elim
    · simp only [hunkWalk]; exact ih hP hso hsn
    · simp only [hunkWalk]; exact ih hP hso hsn
    · simp only [hunkWalk]; exact ih hP hso hsn
    · simp only [hunkWalk]; exact ih hP hso hsn
    · simp only [hunkWalk]; exact ih hP hso hsn
    · exact (hshape o1 os n1 ns x ls rfl rfl rfl).elim
  · -- the guard case: unreachable when lcs is a common subsequence
    intro old new lcs i j removed added hstuck hP hso hsn
    have hrem : List.takeWhile (neqHead lcs) old = [] := hstuck.1
    have hadd : List.takeWhile (neqHead lcs) new = [] := hstuck.2
    cases lcs with
    | nil =>
      have hold : old = [] := by
        cases old with
        | nil => rfl
        | cons a as => simp [List.takeWhile_cons, neqHead] at hrem
      have hnew : new = [] := by
        cases new with
        | nil => rfl
        | cons a as => simp [List.takeWhile_cons, neqHead] at hadd
      subst hold; subst hnew
      simp [hunkEmit, applyFrom]
    | cons x ls =>
      cases old with
      | nil => exact absurd hso (by simp)
      | cons o os =>
        have ho : o = x := by
          by_contra hne
          simp [List.takeWhile_cons, neqHead, hne] at hrem
        cases new with
        | nil => exact absurd hsn (by simp)
        | cons n ns =>
          have hn : n = x := by
            by_contra hne
            simp [List.takeWhile_cons, neqHead, hne] at hadd
          exact absurd ⟨x, os, ns, ls, by rw [ho], by rw [hn], rfl⟩ hP
  · -- emit one hunk and continue after it
    intro old new lcs i j removed added hne ih hP hso hsn
    have hdropOld : old.drop (old.takeWhile (neqHead lcs)).length = old.dropWhile (neqHead lcs) :=
      drop_length_takeWhile _ _
    have hdropNew : new.drop (new.takeWhile (neqHead lcs)).length = new.dropWhile (neqHead lcs) :=
      drop_length_takeWhile _ _
    have hsoDrop : List.Sublist lcs (old.dropWhile (neqHead lcs)) := by
      cases lcs with
      | nil => exact List.nil_sublist _
      | cons x ls => exact sublist_dropWhile_of_head _ x ls old hso (by simp [neqHead])
    have hsnDrop : List.Sublist lcs (new.dropWhile (neqHead lcs)) := by
      cases lcs with
      | nil => exact List.nil_sublist _
      | cons x ls => exact sublist_dropWhile_of_head _ x ls new hsn (by simp [neqHead])
    have IH := ih (by rw [hdropOld]; exact hsoDrop) (by rw [hdropNew]; exact hsnDrop)
    simp only [hunkEmit]
    split
    · exact absurd (by assumption) hne
    · simp only [applyFrom, Nat.sub_self, List.take_zero, List.nil_append, Nat.zero_add,
        addedOf_emit]
      rw [IH, hdropNew]
      exact List.takeWhile_append_dropWhile _ _

/-- C3: for arbitrary line sequences `a` and `b`, applying in order all hunks
produced by `computeHunks a b` to `a` — deleting each hunk's removed lines at
its old position and inserting its added lines at its new position, as
`applyHunks` does — reproduces `b` exactly. -/
theorem computeHunks_roundtrip (a b : List String) :
    applyHunks a (computeHunks a b) = b :=
  applyFrom_hunkWalk a b (longestCommonSubsequence a b) 0 0
    (longestCommonSubsequence_sublist_left a b)
    (longestCommonSubsequence_sublist_right a b)

/-- The reversed LCS of a list with itself is the list itself. -/
theorem lcsRev_self (a : List String) : lcsRev a a = a := by
  induction a with
  | nil => simp [lcsRev]
  | cons x xs ih => simp only [lcsRev, if_true]; rw [ih]

/-- The LCS of a text with itself is the whole text. -/
theorem longestCommonSubsequence_self (a : List String) :
    longestCommonSubsequence a a = a := by
  simp [longestCommonSubsequence, lcsRev_self]

/-- Walking identical texts along their full LCS yields no hunks. -/
theorem hunkWalk_self (a : List String) : ∀ i j : Nat, hunkWalk a a a i j = [] := by
  induction a with
  | nil => intro i j; simp only [hunkWalk]
  | cons x xs ih =>
    intro i j
    simp only [hunkWalk, if_pos (⟨rfl, rfl⟩ : x = x ∧ x = x)]
    exact ih _ _

/-- Diffing a text against itself yields no hunks. -/
theorem computeHunks_self (a : List String) : computeHunks a a = [] := by
  simp [computeHunks, longestCommonSubsequence_self, hunkWalk_self]

/-- Diffing a text against itself yields empty output and zero counts. -/
theorem computeDiff_self (x : String) :
    computeDiff x x = ⟨"", 0, 0⟩ := by
  simp [computeDiff, computeHunks_self, joinLines]

/-! ## Flush-time source resolution (`DiffCollector.flushDiff`) -/

/-- The event sources of `database/schema.ts`
(`'human' | 'agent' | 'tab-completion'`). -/
inductive EventSource where
  | human
  | agent
  | tabCompletion
deriving DecidableEq

/-- The per-file batch state `FileState` of `DiffCollector` (the `timeout`
timer handle carries no data and is omitted). -/
structure FileState where
  baseline : String
  current : String
  hadAgentActivity : Bool
  agentSubtype : Option AgentSubtype
  agentInteraction : Option AgentInteraction
  humanTypedChars : Nat
  externalChars : Nat
deriving DecidableEq

/-- The record emitted to `sessionManager.recordEvent` at flush (the fields
the flush logic computes; constant fields like `type: 'diff'` and the file
path are omitted). -/
structure DiffRecord where
  source : EventSource
  agentSubtype : Option AgentSubtype
  agentInteraction : Option AgentInteraction
  content : String
  linesAdded : Nat
  linesRemoved : Nat
deriving DecidableEq

/-- The batch-state reset performed at the end of `flushDiff` (and in its
no-change early return). -/
def resetBatch (s : FileState) : FileState :=
  { s with
    hadAgentActivity := false
    agentSubtype := none
    agentInteraction := none
    humanTypedChars := 0
    externalChars := 0 }

/-- `DiffCollector.flushDiff`, as a function of the batch state and of the
agent monitor's view at flush time (`oracleActive` is the result of
`isAgentActive` after `forceCheckForAgentActivity`; `oracleSubtype` and
`oracleInteraction` are the monitor's getters).  Returns the emitted record
(none when baseline equals current: skip, reset flags only) and the new
batch state.  The side effects on collaborators — `consumeAgentActivity()`
when the source is agent and `humanInputTracker.clearBuffer` — live on the
monitor/tracker states and are not part of the batch state. -/
def flushDiff (s : FileState) (oracleActive : Bool)
    (oracleSubtype : Option AgentSubtype) (oracleInteraction : Option AgentInteraction) :
    Option DiffRecord × FileState :=
  if s.baseline = s.current then
    (none, resetBatch s)
  else
    let d := computeDiff s.baseline s.current
    let sel : EventSource × Option AgentSubtype × Option AgentInteraction :=
      if s.hadAgentActivity then
        (EventSource.agent, s.agentSubtype, s.agentInteraction)
      else if 0 < s.externalChars ∧ s.humanTypedChars = 0 then
        if oracleActive then
          (EventSource.agent, oracleSubtype, oracleInteraction)
        else
          (EventSource.human, none, none)
      else
        (EventSource.human, none, none)
    (some ⟨sel.1, sel.2.1, sel.2.2, d.text, d.added, d.removed⟩,
      { resetBatch s with baseline := s.current })

/-- C2 as amended: at flush, a batch with `humanTypedChars > 0` records
source human — regardless of external characters in the same batch and of
the oracle's state at flush — PROVIDED no external change of the batch was
observed while the oracle was active (`hadAgentActivity = false`); the
`hadAgentActivity` branch is checked first and would win otherwise. -/
theorem flushDiff_human_typed (s : FileState) (oracleActive : Bool)
    (oSub : Option AgentSubtype) (oInt : Option AgentInteraction)
    (hnoagent : s.hadAgentActivity = false) (hhuman : 0 < s.humanTypedChars) :
    ∀ r ∈ (flushDiff s oracleActive oSub oInt).1, r.source = EventSource.human := by
  intro r hr
  simp only [flushDiff] at hr
  split at hr
  · simp at hr
  · rw [if_neg (by simp [hnoagent]), if_neg (by omega)] at hr
    simp at hr
    rw [← hr]

/-- Batch of the C2 counterexample: one human-typed character, five external
characters observed while the agent oracle was active. -/
def c2State : FileState := ⟨"a", "b", true, none, none, 1, 5⟩

/-- C2 counterexample: a batch with `humanTypedChars = 1 > 0` whose agent
flag was captured during the batch records source agent, not human — the
claim's "unconditionally, regardless of any agent-activity signal observed
during the batch" fails on the code. -/
theorem c2_counterexample :
    0 < c2State.humanTypedChars ∧
    ((flushDiff c2State false none none).1.map (fun r => r.source)) =
      some EventSource.agent := by
  constructor
  · decide
  · simp +decide [flushDiff, c2State]

/-- C2 amended witness: a concrete human-typed batch flushes as human even
with the oracle active at flush time. -/
theorem flushDiff_human_typed_witness :
    ((flushDiff ⟨"a", "b", false, none, none, 3, 0⟩ true none none).1.map
      (fun r => r.source)) = some EventSource.human := by
  have hall := flushDiff_human_typed ⟨"a", "b", false, none, none, 3, 0⟩ true none none rfl
    (by decide)
  cases hfd : (flushDiff ⟨"a", "b", false, none, none, 3, 0⟩ true none none).1 with
  | none => simp +decide [flushDiff] at hfd
  | some r =>
    have hr : r.source = EventSource.human := hall r (by simp [hfd])
    simp [hfd, hr]

/-- C8: diffing any text against itself yields zero hunks and zero
added/removed counts, and a flush whose baseline equals its current text
emits no record — it only resets the batch state. -/
theorem diff_self_flush_noop (x : List String) (y : String) (s : FileState)
    (oA : Bool) (oS : Option AgentSubtype) (oI : Option AgentInteraction)
    (h : s.baseline = s.current) :
    computeHunks x x = [] ∧
    (computeDiff y y).added = 0 ∧ (computeDiff y y).removed = 0 ∧
    (flushDiff s oA oS oI).1 = none ∧
    (flushDiff s oA oS oI).2 = resetBatch s := by
  refine ⟨computeHunks_self x, ?_, ?_, ?_, ?_⟩
  · rw [computeDiff_self]
  · rw [computeDiff_self]
  · simp [flushDiff, h]
  · simp [flushDiff, h]

/-- C8 witness: the no-op flush discharged on a concrete unchanged batch. -/
theorem diff_self_flush_noop_witness :
    computeHunks ["a"] ["a"] = [] ∧
    (computeDiff "a" "a").added = 0 ∧ (computeDiff "a" "a").removed = 0 ∧
    (flushDiff ⟨"a", "a", false, none, none, 0, 2⟩ true none none).1 = none ∧
    (flushDiff ⟨"a", "a", false, none, none, 0, 2⟩ true none none).2 =
      resetBatch ⟨"a", "a", false, none, none, 0, 2⟩ :=
  diff_self_flush_noop ["a"] "a" ⟨"a", "a", false, none, none, 0, 2⟩ true none none rfl

/-- C9: diffing `"a\nb\nc"` against `"a\nx\nc"` produces exactly one hunk —
0-based record `oldStart = newStart = 1` with counts 1, rendered 1-based as
`@@ -2,1 +2,1 @@` — whose removed line `"- b"` precedes its added line
`"+ x"`, with one added and one removed line counted. -/
theorem diff_single_line_replacement :
    computeHunks ["a", "b", "c"] ["a", "x", "c"] =
      [⟨1, 1, 1, 1, ["- b", "+ x"]⟩] ∧
    (computeDiff "a\nb\nc" "a\nx\nc").text = "@@ -2,1 +2,1 @@\n- b\n+ x" ∧
    (computeDiff "a\nb\nc" "a\nx\nc").added = 1 ∧
    (computeDiff "a\nb\nc" "a\nx\nc").removed = 1 := by
  refine ⟨?_, ?_, ?_, ?_⟩ <;>
    simp +decide [computeDiff, computeHunks, longestCommonSubsequence, lcsRev, lcsLenRev,
      hunkWalk, hunkEmit, neqHead, splitLines, splitLinesList, joinLines, hunkHeader,
      strStartsWithChar]
